import Mathlib

/-!
Verification development for the sm-pricing repository.

This file gives a shallow embedding of the core of
`graph_ingestion/email_processor.py` (`VendorFileProcessor`):
the identifier normalizer `normalize_upc`, the vendor signature
classifier (`_score_vendor_match`, `_detect_csv_vendor`,
`_detect_excel_vendor`, `_check_rainforest_sheet`,
`_is_rainforest_headers`), the column extractor
(`extract_vendor_data`, with file reading abstracted to an already
parsed table or a read failure), and the reconciliation engine
(`create_matching_test`, including the pandas index-alignment
semantics of assigning a merged column back onto the base frame).

Strings are modelled as `List Char` (Python `str`), cells as
`Option (List Char)` (`none` is `None`/NaN), and money as `ℚ`
(decimal semantics of cost comparison).
-/

namespace SmPricing

/-- ASCII fragment of the Python whitespace class used by `str.strip()`
and the regex class `\s`. -/
def isPySpace (c : Char) : Bool :=
  c == ' ' || c == '\t' || c == '\n' || c == '\x0d' || c == '\x0b' || c == '\x0c'

/-- Python `str.strip()`: drop leading and trailing whitespace. -/
def pyStrip (l : List Char) : List Char :=
  ((l.dropWhile isPySpace).reverse.dropWhile isPySpace).reverse

/-- ASCII decimal digit test. -/
def isDigitCh (c : Char) : Bool := '0' ≤ c && c ≤ '9'

/-- Python `str.isdigit()` (ASCII): nonempty and all digits. -/
def pyIsDigit (l : List Char) : Bool := !l.isEmpty && l.all isDigitCh

/-- `VendorFileProcessor.normalize_upc`.  The argument is the raw cell
value; `none` models Python `None` (and a NaN cell, `pd.isna`). -/
def normalize_upc : Option (List Char) → Option (List Char)
  | none => none
  | some raw =>
    -- upc_str = str(upc).strip(); if not upc_str: return None
    let upc_str := pyStrip raw
    if upc_str = [] then none
    else
      -- if '.' in upc_str: upc_str = upc_str.split('.')[0]
      let upc_str := upc_str.takeWhile (fun c => !(c == '.'))
      -- upc_clean = re.sub(r'[-\s]', '', upc_str)
      let upc_clean := upc_str.filter (fun c => !(c == '-' || isPySpace c))
      -- if not upc_clean.isdigit(): return upc_clean
      if !pyIsDigit upc_clean then some upc_clean
      else
        -- upc_clean = upc_clean.lstrip('0'); if not upc_clean: return None
        let upc_clean := upc_clean.dropWhile (fun c => c == '0')
        if upc_clean = [] then none
        -- if len(upc_clean) <= 5: return None
        else if upc_clean.length ≤ 5 then none
        -- check digit normalization by length
        else if upc_clean.length = 13 then some (upc_clean.take 12)
        else if upc_clean.length = 12 then some (upc_clean.take 11)
        else if upc_clean.length = 8 then some upc_clean
        else some upc_clean

/-! ## Vendor signature classifier -/

/-- A spreadsheet/CSV cell as the classifier sees it: `none` is a
missing value (NaN). -/
abbrev Cell := Option (List Char)

/-- Per-cell cleaning used when building the header text blob:
`str(h).strip().upper() if h is not None and str(h) != 'nan' else ""`
(the upper-casing is applied once to the joined blob below, which is
the same thing character-wise). -/
def cellClean (c : Cell) : List Char :=
  match c with
  | none => []
  | some s => if s = "nan".data then [] else pyStrip s

/-- Python `str.upper` (ASCII). -/
def toUpperL (l : List Char) : List Char := l.map Char.toUpper

/-- The concatenated, upper-cased row text blob
(`headers_text = " ".join(headers_clean)` upper-cased). -/
def headersText (cells : List Cell) : List Char :=
  toUpperL (List.intercalate [' '] (cells.map cellClean))

/-- Python `needle in hay` substring test. -/
def isInfixL (needle : List Char) : List Char → Bool
  | [] => needle.isEmpty
  | c :: rest => needle.isPrefixOf (c :: rest) || isInfixL needle rest

/-- A vendor signature: required and forbidden header tokens. -/
structure Signature where
  required : List (List Char)
  forbidden : List (List Char)
  deriving DecidableEq

/-- `self.file_signatures` from `VendorFileProcessor.__init__`:
the generic signature registry (note: no RAINFOREST entry). -/
def file_signatures : List (String × Signature) :=
  [("HANA", ⟨["HANA ID".data, "UPC UNIT".data, "UNIT PRICE".data],
             ["ITEM #".data, "AUGUST".data, "ECRS".data, "CUST NBR".data]⟩),
   ("KEHE", ⟨["UPC#".data, "AUGUST UNIT COST".data],
             ["HANA ID".data, "ECRS".data, "CUST NBR".data, "MANUFACTURER NAME".data]⟩),
   ("OSA", ⟨["UPRICE".data, "UNIT UPC".data, "CASE UPC".data],
            ["AUGUST".data, "HANA ID".data, "ITEM NO.".data, "CUST NBR".data]⟩),
   ("UNFI", ⟨["CUST NBR".data, "ZONE".data, "UNIT COST".data],
             ["UPC#".data, "AUGUST".data, "HANA ID".data, "MANUFACTURER NAME".data]⟩),
   ("ECRS", ⟨["UPC".data, "DEPT".data, "SUBDEPT".data, "AVG PRICE".data],
             ["UPC#".data, "AUGUST".data, "HANA ID".data, "CUST NBR".data,
              "MANUFACTURER NAME".data]⟩)]

/-- `required_matches`: how many required tokens occur in the blob. -/
def requiredMatches (sig : Signature) (text : List Char) : Nat :=
  (sig.required.filter (fun r => isInfixL (toUpperL r) text)).length

/-- `required_score = required_matches / len(required) if required else 0`;
the quotient is written `mkRat` (equal to `/` by `Rat.mkRat_eq_div`,
proved below) so that it evaluates by kernel reduction. -/
def requiredScore (sig : Signature) (text : List Char) : ℚ :=
  if sig.required.length = 0 then 0
  else mkRat (requiredMatches sig text) (sig.required.length)

/-- `forbidden_found = any(forb.upper() in headers_text ...)`. -/
def forbiddenFound (sig : Signature) (text : List Char) : Bool :=
  sig.forbidden.any (fun f => isInfixL (toUpperL f) text)

/-- A vendor is a candidate match for a row blob iff all its required
tokens are present and none of its forbidden tokens is present
(`required_matches == len(required) and not forbidden_found`). -/
def isCandidate (sig : Signature) (text : List Char) : Prop :=
  requiredMatches sig text = sig.required.length ∧ forbiddenFound sig text = false

instance (sig : Signature) (text : List Char) : Decidable (isCandidate sig text) :=
  inferInstanceAs (Decidable (And _ _))

/-- One iteration of the best-vendor loop in `_score_vendor_match`:
a vendor becomes the best candidate iff all required tokens match, no
forbidden token matches, and its score strictly beats the best so far. -/
def scoreStep (text : List Char) (best : Option String × ℚ) (vs : String × Signature) :
    Option String × ℚ :=
  if requiredMatches vs.2 text = vs.2.required.length ∧ forbiddenFound vs.2 text = false ∧
      best.2 < requiredScore vs.2 text then
    (some vs.1, requiredScore vs.2 text)
  else best

/-- `VendorFileProcessor._score_vendor_match` (the `source_name`
argument only feeds prints and is dropped). -/
def score_vendor_match (sigs : List (String × Signature)) (headers : List Cell) :
    Option String :=
  if headers.isEmpty then none
  else
    let text := headersText headers
    if (pyStrip text).isEmpty then none
    else (sigs.foldl (scoreStep text) (none, 0)).1

/-- The mutable discovery state inside `self.vendor_columns`:
the two dynamic `header_row` entries (UNFI and RAINFOREST),
both initialized to 2. -/
structure VendorState where
  unfi_header_row : Nat
  rainforest_header_row : Nat
  deriving DecidableEq

/-- Initial `vendor_columns` header-row state. -/
def initVendorState : VendorState := ⟨2, 2⟩

/-- The candidate rows checked by `_detect_csv_vendor`, paired with the
row index the code writes back on a UNFI match (`csv_headers` row gets
index 0; `csv_row_i` gets index `i`); at most 8 data rows are probed. -/
def row_candidates (header : List Cell) (dataRows : List (List Cell)) :
    List (Nat × List Cell) :=
  (0, header) :: (dataRows.take 8).enum

/-- First candidate row that yields a vendor, with its index
(the `for row_name, row_headers in rows_to_check` loop). -/
def findFirstMatch (sigs : List (String × Signature)) :
    List (Nat × List Cell) → Option (Nat × String)
  | [] => none
  | (i, r) :: rest =>
    match score_vendor_match sigs r with
    | some v => some (i, v)
    | none => findFirstMatch sigs rest

/-- `VendorFileProcessor._detect_csv_vendor`: probe the parsed header
row then up to 8 data rows; on a UNFI match write the discovered row
index into the UNFI column map. -/
def detect_csv_vendor (sigs : List (String × Signature)) (st : VendorState)
    (header : List Cell) (dataRows : List (List Cell)) : Option String × VendorState :=
  match findFirstMatch sigs (row_candidates header dataRows) with
  | none => (none, st)
  | some (i, v) =>
    (some v, if v = "UNFI" then { st with unfi_header_row := i } else st)

/-- `VendorFileProcessor._is_rainforest_headers`: score the three
required tokens plus the UPC tie-break token, match at score ≥ 3. -/
def is_rainforest_headers (cells : List Cell) : Bool :=
  if cells.isEmpty then false
  else
    let text := headersText cells
    let score :=
      (if isInfixL "ITEM NO".data text then 1 else 0) +
      (if isInfixL "MANUFACTURER NAME".data text then 1 else 0) +
      (if isInfixL "UNIT COST".data text then 1 else 0) +
      (if isInfixL "UPC".data text ∧ isInfixL "UPC#".data text = false then 1 else 0)
    decide (3 ≤ score)

/-- An Excel sheet as read with `header=0`: its name, the header row,
and the data rows below it. -/
structure Sheet where
  sname : String
  header : List Cell
  dataRows : List (List Cell)

/-- `VendorFileProcessor._check_rainforest_sheet`: look for the first
of up to 8 rows of the "Full Price List" sheet that carries the
RAINFOREST signature; return the discovered row index. -/
def check_rainforest_sheet (sheets : List Sheet) : Option Nat :=
  match sheets.find? (fun sh => sh.sname == "Full Price List") with
  | none => none
  | some sh =>
    ((sh.dataRows.take 8).enum.find? (fun p => is_rainforest_headers p.2)).map
      (fun p => p.1)

/-- First row of a candidate list that yields a vendor (Excel generic
scoring does not use the row index). -/
def firstMatchRows (sigs : List (String × Signature)) : List (List Cell) → Option String
  | [] => none
  | r :: rest =>
    match score_vendor_match sigs r with
    | some v => some v
    | none => firstMatchRows sigs rest

/-- The generic per-sheet loop of `_detect_excel_vendor`: for each
sheet, probe the header row then up to 8 data rows. -/
def detect_excel_sheets (sigs : List (String × Signature)) : List Sheet → Option String
  | [] => none
  | sh :: rest =>
    match firstMatchRows sigs (sh.header :: sh.dataRows.take 8) with
    | some v => some v
    | none => detect_excel_sheets sigs rest

/-- `VendorFileProcessor._detect_excel_vendor`: if a "Full Price List"
sheet exists, run the dedicated RAINFOREST check first (writing the
discovered header row back on success); otherwise fall through to
generic scoring over the first 3 sheets, which performs no state
write. -/
def detect_excel_vendor (sigs : List (String × Signature)) (st : VendorState)
    (sheets : List Sheet) : Option String × VendorState :=
  match (if sheets.any (fun sh => sh.sname == "Full Price List")
         then check_rainforest_sheet sheets else none) with
  | some i => (some "RAINFOREST", { st with rainforest_header_row := i })
  | none => (detect_excel_sheets sigs (sheets.take 3), st)

/-! ## Column extractor -/

/-- A parsed tabular file (the DataFrame produced by
`pd.read_csv`/`pd.read_excel` with `dtype=str`, after the header
offset): a column count and the data rows.  The pandas row index is
the position in `rows`. -/
structure Df where
  ncols : Nat
  rows : List (List Cell)

/-- One entry of `self.vendor_columns` (the fixed column positions;
the dynamic `header_row` state is `VendorState` above and only feeds
the file read, which is abstracted here). -/
structure VendorCols where
  upc_col : Nat
  cost_col : Option Nat
  price_col : Option Nat
  category_col : Option Nat
  brand_col : Option Nat
  item_col : Option Nat
  deriving DecidableEq

/-- `self.vendor_columns` from `VendorFileProcessor.__init__`. -/
def vendor_columns : List (String × VendorCols) :=
  [("ECRS", ⟨0, none, some 20, some 3, some 4, some 5⟩),
   ("RAINFOREST", ⟨2, some 12, none, none, none, none⟩),
   ("OSA", ⟨6, some 4, none, none, none, none⟩),
   ("KEHE", ⟨0, some 8, none, none, none, none⟩),
   ("HANA", ⟨3, some 6, none, none, none, none⟩),
   ("UNFI", ⟨20, some 27, none, none, none, none⟩)]

/-- Parse a decimal cost/price cell (`pd.to_numeric(..., errors='coerce')`,
restricted to plain decimal literals): unparsable cells become `none`. -/
def to_numeric : Cell → Option ℚ
  | none => none
  | some s =>
    let s := pyStrip s
    let (sgn, s) : Int × List Char :=
      match s with
      | '-' :: rest => (-1, rest)
      | _ => (1, s)
    let intPart := s.takeWhile isDigitCh
    let rest := s.drop intPart.length
    let fracPart :=
      match rest with
      | '.' :: r => some (r.takeWhile isDigitCh)
      | [] => some []
      | _ => none
    match fracPart with
    | none => none
    | some frac =>
      if intPart.isEmpty && frac.isEmpty then none
      else if !(rest == [] || rest == '.' :: frac) then none
      else
        let n := (intPart ++ frac).foldl (fun acc c => 10 * acc + (c.toNat - '0'.toNat)) 0
        some (mkRat (sgn * n) (10 ^ frac.length))

/-- One extracted row (`result_df`): `label` is the pandas row index it
carries (its position in the source frame), the other fields mirror
the columns built in `extract_vendor_data` (`none` where the vendor's
projection does not fill them). -/
structure CanonRecord where
  label : Nat
  upc : Cell
  upc_normalized : List Char
  unit_cost : Option ℚ
  category : Cell
  brand : Cell
  item : Cell
  avg_price : Option ℚ
  deriving DecidableEq

/-- Cell of row `r` at column `c` (`df.iloc` positional access). -/
def cellAt (r : List Cell) (c : Nat) : Cell := r.getD c none

/-- The body of `extract_vendor_data` as it executes inside the `try`
block: any of the failure points (unknown vendor key, file read/parse
failure, column index out of range) is an exception, modelled as
`Except.error`.  The rows kept are exactly those whose normalized
identifier is non-null (`dropna(subset=['upc_normalized'])`), and they
keep their pandas index. -/
def extractCore (file : Option Df) (vendor : String) :
    Except String (List CanonRecord) :=
  match vendor_columns.find? (fun p => p.1 == vendor) with
  | none => Except.error "KeyError"
  | some (_, cfg) =>
    match file with
    | none => Except.error "file parse failure"
    | some df =>
      if vendor = "ECRS" then
        match cfg.category_col, cfg.brand_col, cfg.item_col, cfg.price_col with
        | some ccat, some cbr, some cit, some cpr =>
          if cfg.upc_col < df.ncols ∧ ccat < df.ncols ∧ cbr < df.ncols ∧
              cit < df.ncols ∧ cpr < df.ncols then
            Except.ok (df.rows.enum.filterMap (fun p =>
              let u := cellAt p.2 cfg.upc_col
              match normalize_upc u with
              | none => none
              | some k => some ⟨p.1, u, k, none, cellAt p.2 ccat, cellAt p.2 cbr,
                  cellAt p.2 cit, to_numeric (cellAt p.2 cpr)⟩))
          else Except.error "single positional indexer is out-of-bounds"
        | _, _, _, _ => Except.error "KeyError"
      else
        if cfg.upc_col < df.ncols then
          match cfg.cost_col with
          | some cc =>
            if cc < df.ncols then
              Except.ok (df.rows.enum.filterMap (fun p =>
                let u := cellAt p.2 cfg.upc_col
                match normalize_upc u with
                | none => none
                | some k => some ⟨p.1, u, k, to_numeric (cellAt p.2 cc),
                    none, none, none, none⟩))
            else Except.error "single positional indexer is out-of-bounds"
          | none =>
            Except.ok (df.rows.enum.filterMap (fun p =>
              let u := cellAt p.2 cfg.upc_col
              match normalize_upc u with
              | none => none
              | some k => some ⟨p.1, u, k, none, none, none, none, none⟩))
        else Except.error "single positional indexer is out-of-bounds"

/-- `VendorFileProcessor.extract_vendor_data`: the whole body runs
under `try`; any exception is caught at the function boundary, a
diagnostic is printed, and `None` is returned (not an empty record
set). -/
def extract_vendor_data (file : Option Df) (vendor : String) :
    Option (List CanonRecord) :=
  match extractCore file vendor with
  | Except.ok recs => some recs
  | Except.error _ => none

/-- Step 3 of `process_vendor_cycle`: extract every identified vendor
file, keeping only the non-`None` results and continuing past
failures. -/
def collect_vendor_data (files : List (String × Option Df)) :
    List (String × List CanonRecord) :=
  files.filterMap (fun p => (extract_vendor_data p.2 p.1).map (fun d => (p.1, d)))

/-! ## Reconciliation engine -/

/-- A base (ECRS) row as the merge sees it: pandas index label and
normalized identifier. -/
structure BaseRow where
  label : Nat
  key : List Char
  deriving DecidableEq

/-- A vendor cost row: normalized identifier and `unit_cost`
(`none` is NaN from a failed numeric parse). -/
structure CostRow where
  key : List Char
  cost : Option ℚ
  deriving DecidableEq

/-- The vendor rows matching a key, in order (the duplicate-key
expansion of a pandas left merge). -/
def rowMatches (v : List CostRow) (k : List Char) : List CostRow :=
  v.filter (fun r => r.key == k)

/-- The `unit_cost` column of
`results.merge(vendor_df[['upc_normalized', 'unit_cost']],
on='upc_normalized', how='left')`: one entry per (base row, matching
vendor row) pair, `none` for unmatched base rows; the merged frame
gets a fresh contiguous RangeIndex, so this list is indexed by
position. -/
def mergeExpand (base : List BaseRow) (v : List CostRow) : List (Option ℚ) :=
  (base.map (fun b =>
    let ms := rowMatches v b.key
    if ms.isEmpty then [none] else ms.map (fun r => r.cost))).flatten

/-- `results[f'{vendor}_cost'] = merged['unit_cost']`: pandas aligns
the assigned Series on the index, so the base row labelled `b.label`
receives the merged column's entry at position `b.label`
(NaN if the label is past the end of the merged frame). -/
def alignedCost (base : List BaseRow) (v : List CostRow) (b : BaseRow) : Option ℚ :=
  (mergeExpand base v).getD b.label none

/-- `results[cost_columns].min(axis=1)` for one row: minimum of the
non-null per-vendor costs, null if none is present. -/
def minCost (cs : List (Option ℚ)) : Option ℚ :=
  match cs.filterMap id with
  | [] => none
  | x :: xs => some (xs.foldl min x)

/-- `results[cost_columns].count(axis=1)` for one row: the number of
non-null per-vendor costs. -/
def countCost (cs : List (Option ℚ)) : Nat := (cs.filterMap id).length

/-- One row of the reconciled result. -/
structure ReconRow where
  label : Nat
  key : List Char
  costs : List (Option ℚ)
  min_cost : Option ℚ
  cost_sources : Nat
  deriving DecidableEq

/-- `VendorFileProcessor.create_matching_test`: left-join every
vendor's cost extract onto the base by normalized identifier (with the
index-aligned column assignment above), then derive `min_cost` and
`cost_sources` from the per-vendor cost columns.  `vendors` lists the
non-ECRS extracts in dict order. -/
def create_matching_test (base : List BaseRow) (vendors : List (List CostRow)) :
    List ReconRow :=
  base.map (fun b =>
    let cs := vendors.map (fun v => alignedCost base v b)
    ⟨b.label, b.key, cs, minCost cs, countCost cs⟩)

/-- The base rows of an extracted frame (pandas index and
`upc_normalized`). -/
def baseRowsOf (recs : List CanonRecord) : List BaseRow :=
  recs.map (fun r => ⟨r.label, r.upc_normalized⟩)

/-- The cost rows of an extracted vendor frame. -/
def costRowsOf (recs : List CanonRecord) : List CostRow :=
  recs.map (fun r => ⟨r.upc_normalized, r.unit_cost⟩)

/-- The cost the claim intends a base row to receive: the first-seen
matching vendor cost (null when no vendor row matches). -/
def firstCostOf (v : List CostRow) (k : List Char) : Option ℚ :=
  match rowMatches v k with
  | [] => none
  | r :: _ => r.cost

/-! ## Helper lemmas -/

theorem dropWhile_eq_self_of_all {p : Char → Bool} {l : List Char}
    (h : ∀ c ∈ l, p c = false) : l.dropWhile p = l := by
  cases l with
  | nil => rfl
  | cons a t => simp [List.dropWhile_cons, h a (List.mem_cons_self a t)]

theorem takeWhile_eq_self_of_all {p : Char → Bool} {l : List Char}
    (h : ∀ c ∈ l, p c = true) : l.takeWhile p = l := by
  induction l with
  | nil => rfl
  | cons a t ih =>
    rw [List.takeWhile_cons, if_pos (h a (List.mem_cons_self a t))]
    exact congrArg (a :: ·) (ih fun c hc => h c (List.mem_cons_of_mem a hc))

theorem pyStrip_eq_self {l : List Char} (h : ∀ c ∈ l, isPySpace c = false) :
    pyStrip l = l := by
  unfold pyStrip
  rw [dropWhile_eq_self_of_all h,
    dropWhile_eq_self_of_all (fun c hc => h c (List.mem_reverse.mp hc)),
    List.reverse_reverse]

theorem dropWhile_shape (p : Char → Bool) (l : List Char) :
    l.dropWhile p = [] ∨ ∃ a t, l.dropWhile p = a :: t ∧ p a = false := by
  induction l with
  | nil => exact Or.inl rfl
  | cons a t ih =>
    by_cases hp : p a = true
    · rw [List.dropWhile_cons, if_pos hp]; exact ih
    · rw [List.dropWhile_cons, if_neg hp]
      exact Or.inr ⟨a, t, rfl, by simpa using hp⟩

theorem pyIsDigit_of {l : List Char} (hne : l ≠ [])
    (hall : ∀ c ∈ l, isDigitCh c = true) : pyIsDigit l = true := by
  cases l with
  | nil => exact absurd rfl hne
  | cons a t =>
    simp only [pyIsDigit, List.isEmpty_cons, Bool.not_false, Bool.true_and,
      List.all_eq_true]
    exact fun c hc => hall c hc

/-- The written quotient `mkRat` in `requiredScore` is the real
`required_matches / len(required)` of the source. -/
theorem requiredScore_eq_div (sig : Signature) (text : List Char) :
    requiredScore sig text =
      if sig.required.length = 0 then 0
      else (requiredMatches sig text : ℚ) / (sig.required.length : ℚ) := by
  unfold requiredScore
  split
  · rfl
  · rw [Rat.mkRat_eq_div]; norm_num

/-! ## The identifier normalizer: characterization -/

/-- Shape of every non-null normalizer output: no decimal point,
hyphen or whitespace survives; and the key is either the non-numeric
pass-through, or a digit string with no leading zero, length at least
6 and never exactly 13. -/
theorem normalize_upc_some_char {x : Option (List Char)} {k : List Char}
    (h : normalize_upc x = some k) :
    (∀ c ∈ k, c ≠ '.' ∧ c ≠ '-' ∧ isPySpace c = false) ∧
    (pyIsDigit k = false ∨
      (pyIsDigit k = true ∧ (∃ a t, k = a :: t ∧ (a == '0') = false) ∧
        6 ≤ k.length ∧ k.length ≠ 13)) := by
  match x with
  | none => simp [normalize_upc] at h
  | some raw =>
    simp only [normalize_upc] at h
    set s := pyStrip raw with hs
    set clean := (s.takeWhile (fun c => !(c == '.'))).filter
      (fun c => !(c == '-' || isPySpace c)) with hclean
    set z := clean.dropWhile (fun c => c == '0') with hz
    have hmemclean : ∀ c ∈ clean, c ≠ '.' ∧ c ≠ '-' ∧ isPySpace c = false := by
      intro c hc
      rw [hclean, List.mem_filter] at hc
      obtain ⟨hmem, hpred⟩ := hc
      have hdot := List.mem_takeWhile_imp hmem
      simp only [Bool.not_eq_true', beq_eq_false_iff_ne, ne_eq] at hdot
      simp only [Bool.not_eq_true', Bool.or_eq_false_iff, beq_eq_false_iff_ne, ne_eq] at hpred
      exact ⟨hdot, hpred.1, hpred.2⟩
    have hmemz : ∀ c ∈ z, c ∈ clean := fun c hc =>
      (List.dropWhile_sublist _).subset hc
    by_cases h1 : s = []
    · rw [if_pos h1] at h; exact absurd h (by simp)
    rw [if_neg h1] at h
    by_cases h2 : (!pyIsDigit clean) = true
    · -- non-numeric pass-through: k = clean
      rw [if_pos h2] at h
      obtain rfl : clean = k := Option.some.inj h
      exact ⟨hmemclean, Or.inl (by simpa using h2)⟩
    rw [if_neg h2] at h
    have hdig : pyIsDigit clean = true := by simpa using h2
    have hcleandig : ∀ c ∈ clean, isDigitCh c = true := by
      have h' : (!clean.isEmpty) = true ∧ clean.all isDigitCh = true := by
        simpa [pyIsDigit, Bool.and_eq_true] using hdig
      exact List.all_eq_true.mp h'.2
    have hzdig : ∀ c ∈ z, isDigitCh c = true := fun c hc => hcleandig c (hmemz c hc)
    by_cases h3 : z = []
    · rw [if_pos h3] at h; exact absurd h (by simp)
    rw [if_neg h3] at h
    obtain ⟨a, t, hzat, ha⟩ : ∃ a t, z = a :: t ∧ (a == '0') = false := by
      rcases dropWhile_shape (fun c => c == '0') clean with he | ⟨a, t, hzz, ha⟩
      · exact absurd (hz.trans he) h3
      · exact ⟨a, t, hz.trans hzz, ha⟩
    by_cases h4 : z.length ≤ 5
    · rw [if_pos h4] at h; exact absurd h (by simp)
    rw [if_neg h4] at h
    by_cases h5 : z.length = 13
    · -- length 13: k = z.take 12
      rw [if_pos h5] at h
      obtain rfl : z.take 12 = k := Option.some.inj h
      have hlen : (z.take 12).length = 12 := by rw [List.length_take]; omega
      refine ⟨fun c hc => hmemclean c (hmemz c (List.take_subset _ _ hc)),
        Or.inr ⟨?_, ⟨a, t.take 11, ?_, ha⟩, by omega, by omega⟩⟩
      · exact pyIsDigit_of (by intro he; rw [he] at hlen; simp at hlen)
          (fun c hc => hzdig c (List.take_subset _ _ hc))
      · rw [hzat]; exact List.take_succ_cons
    rw [if_neg h5] at h
    by_cases h6 : z.length = 12
    · -- length 12: k = z.take 11
      rw [if_pos h6] at h
      obtain rfl : z.take 11 = k := Option.some.inj h
      have hlen : (z.take 11).length = 11 := by rw [List.length_take]; omega
      refine ⟨fun c hc => hmemclean c (hmemz c (List.take_subset _ _ hc)),
        Or.inr ⟨?_, ⟨a, t.take 10, ?_, ha⟩, by omega, by omega⟩⟩
      · exact pyIsDigit_of (by intro he; rw [he] at hlen; simp at hlen)
          (fun c hc => hzdig c (List.take_subset _ _ hc))
      · rw [hzat]; exact List.take_succ_cons
    rw [if_neg h6] at h
    -- length 8 and the catch-all branch both return z unchanged
    have hk : z = k := by
      by_cases h7 : z.length = 8
      · rw [if_pos h7] at h; exact Option.some.inj h
      · rw [if_neg h7] at h; exact Option.some.inj h
    obtain rfl := hk
    exact ⟨fun c hc => hmemclean c (hmemz c hc),
      Or.inr ⟨pyIsDigit_of (by rw [hzat]; simp) hzdig, ⟨a, t, hzat, ha⟩,
        by omega, h5⟩⟩

/-! ## C1: idempotence of the normalizer on canonical keys -/

/-- C1 (amended): re-normalizing a canonical key of length 11 or 8
leaves it unchanged, and on every numeric canonical key the second
leading-zero strip and the short-code filter are no-ops.  (The claim's
length-12 case is false: a numeric canonical key of length 12 — which
arises exactly from 13-digit inputs — is truncated again to length 11;
see the counterexample.) -/
theorem c1_normalize_idempotent_canonical :
    (∀ x k, normalize_upc x = some k → k.length = 11 ∨ k.length = 8 →
      normalize_upc (some k) = some k) ∧
    (∀ x k, normalize_upc x = some k → pyIsDigit k = true →
      k.dropWhile (fun c => c == '0') = k ∧ ¬ k.length ≤ 5) := by
  have hrun : ∀ x k, normalize_upc x = some k →
      (pyIsDigit k = true → k.dropWhile (fun c => c == '0') = k ∧ ¬ k.length ≤ 5) ∧
      (k.length = 11 ∨ k.length = 8 → normalize_upc (some k) = some k) := by
    intro x k h
    obtain ⟨hjunk, hcase⟩ := normalize_upc_some_char h
    have hstrip : pyStrip k = k := pyStrip_eq_self (fun c hc => (hjunk c hc).2.2)
    have htake : k.takeWhile (fun c => !(c == '.')) = k :=
      takeWhile_eq_self_of_all (fun c hc => by simp [(hjunk c hc).1])
    have hfilter : k.filter (fun c => !(c == '-' || isPySpace c)) = k :=
      List.filter_eq_self.mpr (fun c hc => by
        simp [(hjunk c hc).2.1, (hjunk c hc).2.2])
    rcases hcase with hnd | ⟨hd, ⟨a, t, hk, ha⟩, h6, h13⟩
    · -- non-numeric pass-through: refold the whole pipeline
      constructor
      · intro hcontra; rw [hcontra] at hnd; simp at hnd
      intro hlen
      have hne : k ≠ [] := by
        intro he; rcases hlen with h' | h' <;> (rw [he] at h'; simp at h')
      simp only [normalize_upc]
      rw [hstrip, if_neg hne, htake, hfilter, hnd]
      simp
    · -- numeric canonical key: no leading zero, length ≥ 6
      have hdrop : k.dropWhile (fun c => c == '0') = k := by
        rw [hk, List.dropWhile_cons, if_neg (by simp [ha])]
      refine ⟨fun _ => ⟨hdrop, by omega⟩, ?_⟩
      intro hlen
      have hne : k ≠ [] := by rw [hk]; simp
      simp only [normalize_upc]
      rw [hstrip, if_neg hne, htake, hfilter, hd]
      simp only [Bool.not_true, Bool.false_eq_true, if_false]
      rw [hdrop, if_neg hne]
      rcases hlen with h' | h' <;> rw [h'] <;> norm_num
  exact ⟨fun x k h hlen => ((hrun x k h).2 hlen),
    fun x k h hd => ((hrun x k h).1 hd)⟩

/-- C1 counterexample: a 13-digit raw identifier yields the canonical
key "123456789012" of length 12, and re-normalizing that key truncates
it to "12345678901" — the second pass is not a no-op on length-12
canonical keys. -/
theorem c1_counterexample :
    normalize_upc (some "1234567890123".data) = some "123456789012".data ∧
    ("123456789012".data).length = 12 ∧
    normalize_upc (some "123456789012".data) = some "12345678901".data ∧
    ¬ ("12345678901".data = "123456789012".data) := by decide

/-- C1 witness: the amended idempotence applied to the length-11
canonical key produced from "12345678901". -/
theorem c1_witness :
    normalize_upc (some "12345678901".data) = some "12345678901".data :=
  c1_normalize_idempotent_canonical.1 (some "12345678901".data) "12345678901".data
    (by decide) (Or.inl (by decide))

/-! ## C8: point equations of the normalizer -/

/-- C8: `normalize` on blank/None/all-zero input is null, a 12-digit
input loses its check digit, hyphens and the leading zero are
stripped, and codes of length ≤ 5 are rejected. -/
theorem c8_point_equations :
    normalize_upc (some "".data) = none ∧
    normalize_upc none = none ∧
    normalize_upc (some "0000".data) = none ∧
    normalize_upc (some "123456789012".data) = some "12345678901".data ∧
    normalize_upc (some "0-123-456-78901".data) = some "12345678901".data ∧
    normalize_upc (some "406".data) = none := by decide

/-! ## C2: the UNFI end-to-end scenario -/

/-- C2: evaluation of the code at the claimed scenario.  The code
normalizes the raw identifier "000-75925-30120" to "7592530120"
(10 digits survive the leading-zero strip, so no length-triggered
truncation fires), not to the "759253012" that the spec and the
repository's own test `test_upc_normalization` expect; consequently
reconciling it against a base record with canonical key "759253012"
produces no match (`cost_sources = 0`, not 1). -/
theorem c2_unfi_scenario_eval :
    normalize_upc (some "000-75925-30120".data) = some "7592530120".data ∧
    ¬ ("7592530120".data = "759253012".data) ∧
    (create_matching_test [⟨0, "759253012".data⟩]
        [[⟨"7592530120".data, some 10⟩]]).map
      (fun r => (r.min_cost, r.cost_sources)) = [(none, 0)] := by decide

/-! ## C9: empty-string canonical keys -/

/-- C9: non-blank inputs whose cleaned form is empty (for example "-"
or ".5") normalize to the empty string rather than null; the
extractor's null-key drop therefore retains such rows (shown on a
HANA-shaped frame), and two empty-string keys join with each other
during reconciliation. -/
theorem c9_empty_string_keys :
    normalize_upc (some "-".data) = some [] ∧
    normalize_upc (some ".5".data) = some [] ∧
    extract_vendor_data
        (some ⟨7, [[none, none, none, some "-".data, none, none, some "5".data]]⟩)
        "HANA"
      = some [⟨0, some "-".data, [], some 5, none, none, none, none⟩] ∧
    (create_matching_test
        (baseRowsOf [⟨0, some "-".data, [], none, none, none, none, none⟩])
        [costRowsOf [⟨0, some ".5".data, [], some 5, none, none, none, none⟩]]).map
      (fun r => (r.key, r.min_cost, r.cost_sources)) = [([], some 5, 1)] := by decide

/-! ## Classifier lemmas -/

theorem requiredScore_of_candidate {sig : Signature} {text : List Char}
    (hc : requiredMatches sig text = sig.required.length)
    (hne : sig.required.length ≠ 0) : requiredScore sig text = 1 := by
  unfold requiredScore
  rw [if_neg hne, hc, Rat.mkRat_eq_div]
  exact div_self (by exact_mod_cast hne)

theorem requiredScore_le_one_of_candidate {sig : Signature} {text : List Char}
    (hc : requiredMatches sig text = sig.required.length) :
    requiredScore sig text ≤ 1 := by
  by_cases hne : sig.required.length = 0
  · unfold requiredScore; rw [if_pos hne]; norm_num
  · rw [requiredScore_of_candidate hc hne]

/-- Invariant of the best-vendor fold: the accumulator is either the
initial `(None, 0)` or a candidate from the signature list carrying
score 1. -/
theorem score_foldl_inv (text : List Char) (S : List (String × Signature)) :
    ∀ l : List (String × Signature), (∀ p ∈ l, p ∈ S) →
    ∀ acc : Option String × ℚ,
      (acc = (none, 0) ∨ ∃ v sig, acc = (some v, 1) ∧ (v, sig) ∈ S ∧
        isCandidate sig text ∧ requiredScore sig text = 1) →
      (l.foldl (scoreStep text) acc = (none, 0) ∨
        ∃ v sig, l.foldl (scoreStep text) acc = (some v, 1) ∧ (v, sig) ∈ S ∧
          isCandidate sig text ∧ requiredScore sig text = 1) := by
  intro l
  induction l with
  | nil => intro _ acc hacc; simpa using hacc
  | cons p rest ih =>
    intro hsub acc hacc
    rw [List.foldl_cons]
    refine ih (fun q hq => hsub q (List.mem_cons_of_mem p hq)) _ ?_
    by_cases hcond : requiredMatches p.2 text = p.2.required.length ∧
        forbiddenFound p.2 text = false ∧ acc.2 < requiredScore p.2 text
    · obtain ⟨hrm, hforb, hlt⟩ := hcond
      have hacc2 : (0 : ℚ) ≤ acc.2 := by
        rcases hacc with rfl | ⟨v, sig, rfl, -, -, -⟩
        · norm_num
        · norm_num
      have hne : p.2.required.length ≠ 0 := by
        intro h0
        have : requiredScore p.2 text = 0 := by unfold requiredScore; rw [if_pos h0]
        rw [this] at hlt; exact absurd (lt_of_le_of_lt hacc2 hlt) (lt_irrefl 0)
      have hone : requiredScore p.2 text = 1 := requiredScore_of_candidate hrm hne
      refine Or.inr ⟨p.1, p.2, ?_, hsub p (List.mem_cons_self p rest), ⟨hrm, hforb⟩, hone⟩
      rw [scoreStep, if_pos ⟨hrm, hforb, hlt⟩, hone]
    · rw [scoreStep, if_neg hcond]
      exact hacc

/-- What a successful `_score_vendor_match` guarantees: the returned
vendor is a registered candidate (all required tokens are substrings
of the blob, no forbidden token is), its required-match ratio is 1,
and no candidate has a larger ratio. -/
theorem score_vendor_match_spec {sigs : List (String × Signature)}
    {headers : List Cell} {v : String}
    (h : score_vendor_match sigs headers = some v) :
    ∃ sig, (v, sig) ∈ sigs ∧
      (∀ r ∈ sig.required, isInfixL (toUpperL r) (headersText headers) = true) ∧
      (∀ f ∈ sig.forbidden, isInfixL (toUpperL f) (headersText headers) = false) ∧
      requiredScore sig (headersText headers) = 1 ∧
      (∀ w s, (w, s) ∈ sigs → isCandidate s (headersText headers) →
        requiredScore s (headersText headers) ≤ requiredScore sig (headersText headers)) := by
  unfold score_vendor_match at h
  by_cases h1 : headers.isEmpty
  · rw [if_pos h1] at h; exact absurd h (by simp)
  rw [if_neg h1] at h
  by_cases h2 : (pyStrip (headersText headers)).isEmpty
  · rw [if_pos h2] at h; exact absurd h (by simp)
  rw [if_neg h2] at h
  rcases score_foldl_inv (headersText headers) sigs sigs (fun q hq => hq) (none, 0)
      (Or.inl rfl) with heq | ⟨w, sig, heq, hmem, hcand, hone⟩
  · rw [heq] at h; exact absurd h (by simp)
  · rw [heq] at h
    obtain rfl : w = v := by simpa using h
    have hreq : ∀ r ∈ sig.required, isInfixL (toUpperL r) (headersText headers) = true := by
      have hfl : sig.required.filter
          (fun r => isInfixL (toUpperL r) (headersText headers)) = sig.required :=
        (List.filter_sublist _).eq_of_length hcand.1
      intro r hr
      have hr' : r ∈ sig.required.filter
          (fun r => isInfixL (toUpperL r) (headersText headers)) := by
        rw [hfl]; exact hr
      exact (List.mem_filter.mp hr').2
    have hforb : ∀ f ∈ sig.forbidden, isInfixL (toUpperL f) (headersText headers) = false := by
      intro f hf
      cases hif : isInfixL (toUpperL f) (headersText headers) with
      | false => rfl
      | true =>
        have : forbiddenFound sig (headersText headers) = true :=
          List.any_eq_true.mpr ⟨f, hf, hif⟩
        rw [hcand.2] at this; exact absurd this (by simp)
    refine ⟨sig, hmem, hreq, hforb, hone, ?_⟩
    intro w s _ hcands
    rw [hone]
    exact requiredScore_le_one_of_candidate hcands.1

/-- A successful `findFirstMatch` comes from some candidate row. -/
theorem findFirstMatch_mem {sigs : List (String × Signature)} {i : Nat} {v : String} :
    ∀ {cands : List (Nat × List Cell)}, findFirstMatch sigs cands = some (i, v) →
    ∃ r, score_vendor_match sigs r = some v := by
  intro cands
  induction cands with
  | nil => intro h; simp [findFirstMatch] at h
  | cons q rest ih =>
    obtain ⟨j, r⟩ := q
    intro h
    rw [findFirstMatch] at h
    cases hsc : score_vendor_match sigs r with
    | some w =>
      rw [hsc] at h
      obtain ⟨rfl, rfl⟩ : j = i ∧ w = v := by
        have h' := Option.some.inj h
        exact ⟨congrArg Prod.fst h', congrArg Prod.snd h'⟩
      exact ⟨r, hsc⟩
    | none => rw [hsc] at h; exact ih h

/-- A successful generic Excel sheet scan comes from some candidate row. -/
theorem detect_excel_sheets_mem {sigs : List (String × Signature)} {v : String} :
    ∀ {sheets : List Sheet}, detect_excel_sheets sigs sheets = some v →
    ∃ r, score_vendor_match sigs r = some v := by
  have hrows : ∀ {rows : List (List Cell)}, firstMatchRows sigs rows = some v →
      ∃ r, score_vendor_match sigs r = some v := by
    intro rows
    induction rows with
    | nil => intro h; simp [firstMatchRows] at h
    | cons r rest ih =>
      intro h
      rw [firstMatchRows] at h
      cases hsc : score_vendor_match sigs r with
      | some w => rw [hsc] at h; exact ⟨r, hsc.trans (by simpa using h)⟩
      | none => rw [hsc] at h; exact ih h
  intro sheets
  induction sheets with
  | nil => intro h; simp [detect_excel_sheets] at h
  | cons sh rest ih =>
    intro h
    rw [detect_excel_sheets] at h
    cases hfm : firstMatchRows sigs (sh.header :: sh.dataRows.take 8) with
    | some w => rw [hfm] at h; exact hrows (hfm.trans (by simpa using h))
    | none => rw [hfm] at h; exact ih h

/-- The five vendor tags of the signature registry. -/
theorem file_signatures_vendors {v : String} {sig : Signature}
    (h : (v, sig) ∈ file_signatures) :
    v ∈ ["HANA", "KEHE", "OSA", "UNFI", "ECRS"] := by
  simp only [file_signatures, List.mem_cons, List.not_mem_nil, or_false,
    Prod.mk.injEq] at h
  rcases h with ⟨h, -⟩ | ⟨h, -⟩ | ⟨h, -⟩ | ⟨h, -⟩ | ⟨h, -⟩ <;> simp [h]

/-- Dispatch equation: a successful Full-Price-List check drives the
whole Excel classification. -/
theorem detect_excel_vendor_of_rf (sigs : List (String × Signature))
    (st : VendorState) (sheets : List Sheet) (i : Nat)
    (hany : sheets.any (fun sh => sh.sname == "Full Price List") = true)
    (hc : check_rainforest_sheet sheets = some i) :
    detect_excel_vendor sigs st sheets =
      (some "RAINFOREST", { st with rainforest_header_row := i }) := by
  unfold detect_excel_vendor
  rw [if_pos hany, hc]

/-- Dispatch equation: without a successful Full-Price-List check the
Excel classification is generic scoring with the state untouched. -/
theorem detect_excel_vendor_of_not_rf (sigs : List (String × Signature))
    (st : VendorState) (sheets : List Sheet)
    (hrf : (if sheets.any (fun sh => sh.sname == "Full Price List")
            then check_rainforest_sheet sheets else none) = none) :
    detect_excel_vendor sigs st sheets =
      (detect_excel_sheets sigs (sheets.take 3), st) := by
  unfold detect_excel_vendor
  rw [hrf]

/-- On the real registry, the detect-excel entry point returns
RAINFOREST exactly from a successful "Full Price List" check, and it
then writes the discovered row index into the RAINFOREST column map. -/
theorem detect_excel_rainforest (st : VendorState) (sheets : List Sheet)
    (h : (detect_excel_vendor file_signatures st sheets).1 = some "RAINFOREST") :
    ∃ i, check_rainforest_sheet sheets = some i ∧
      (detect_excel_vendor file_signatures st sheets).2 =
        { st with rainforest_header_row := i } := by
  cases hrf : (if sheets.any (fun sh => sh.sname == "Full Price List")
      then check_rainforest_sheet sheets else none) with
  | some i =>
    have hany : sheets.any (fun sh => sh.sname == "Full Price List") = true := by
      by_cases hany : sheets.any (fun sh => sh.sname == "Full Price List") = true
      · exact hany
      · rw [if_neg hany] at hrf; exact absurd hrf (by simp)
    have hc : check_rainforest_sheet sheets = some i := by rwa [if_pos hany] at hrf
    rw [detect_excel_vendor_of_rf file_signatures st sheets i hany hc]
    exact ⟨i, hc, rfl⟩
  | none =>
    rw [detect_excel_vendor_of_not_rf file_signatures st sheets hrf] at h
    exfalso
    obtain ⟨r, hr⟩ := detect_excel_sheets_mem (by simpa using h)
    obtain ⟨sig, hmem, -⟩ := score_vendor_match_spec hr
    have := file_signatures_vendors hmem
    simp at this

/-- On the real registry, every non-RAINFOREST result of the
detect-excel entry point leaves the discovery state untouched (the
generic scoring path performs no write-back). -/
theorem detect_excel_state_unchanged (st : VendorState) (sheets : List Sheet)
    (v : String) (h : (detect_excel_vendor file_signatures st sheets).1 = some v)
    (hv : v ≠ "RAINFOREST") :
    (detect_excel_vendor file_signatures st sheets).2 = st := by
  cases hrf : (if sheets.any (fun sh => sh.sname == "Full Price List")
      then check_rainforest_sheet sheets else none) with
  | some i =>
    have hany : sheets.any (fun sh => sh.sname == "Full Price List") = true := by
      by_cases hany : sheets.any (fun sh => sh.sname == "Full Price List") = true
      · exact hany
      · rw [if_neg hany] at hrf; exact absurd hrf (by simp)
    have hc : check_rainforest_sheet sheets = some i := by rwa [if_pos hany] at hrf
    rw [detect_excel_vendor_of_rf file_signatures st sheets i hany hc] at h
    exact absurd (by simpa using h.symm) hv
  | none =>
    rw [detect_excel_vendor_of_not_rf file_signatures st sheets hrf]

/-- Dispatch equation for `_detect_csv_vendor` on a successful row
search. -/
theorem detect_csv_vendor_of_found (sigs : List (String × Signature))
    (st : VendorState) (header : List Cell) (dataRows : List (List Cell))
    (i : Nat) (v : String)
    (hf : findFirstMatch sigs (row_candidates header dataRows) = some (i, v)) :
    detect_csv_vendor sigs st header dataRows =
      (some v, if v = "UNFI" then { st with unfi_header_row := i } else st) := by
  unfold detect_csv_vendor
  rw [hf]

/-- Dispatch equation for `_detect_csv_vendor` on a failed row search. -/
theorem detect_csv_vendor_of_none (sigs : List (String × Signature))
    (st : VendorState) (header : List Cell) (dataRows : List (List Cell))
    (hf : findFirstMatch sigs (row_candidates header dataRows) = none) :
    detect_csv_vendor sigs st header dataRows = (none, st) := by
  unfold detect_csv_vendor
  rw [hf]

/-! ## C5: semantics of the vendor scorer and the row search -/

/-- C5: (i) a vendor is returned only if all its required tokens are
substrings of the upper-cased concatenated row text and none of its
forbidden tokens is, and among candidate matches its required-match
ratio is maximal; (ii) the first candidate row, in the defined search
order, that yields any match short-circuits the remaining search; and
(iii) the CSV classification result is exactly the vendor of that
first matching candidate row. -/
theorem c5_score_and_short_circuit :
    (∀ sigs (headers : List Cell) v, score_vendor_match sigs headers = some v →
      ∃ sig, (v, sig) ∈ sigs ∧
        (∀ r ∈ sig.required, isInfixL (toUpperL r) (headersText headers) = true) ∧
        (∀ f ∈ sig.forbidden, isInfixL (toUpperL f) (headersText headers) = false) ∧
        (∀ w s, (w, s) ∈ sigs → isCandidate s (headersText headers) →
          requiredScore s (headersText headers) ≤
            requiredScore sig (headersText headers))) ∧
    (∀ sigs (pre : List (Nat × List Cell)) i r suf v,
      (∀ q ∈ pre, score_vendor_match sigs q.2 = none) →
      score_vendor_match sigs r = some v →
      findFirstMatch sigs (pre ++ (i, r) :: suf) = some (i, v)) ∧
    (∀ sigs st header dataRows,
      (detect_csv_vendor sigs st header dataRows).1 =
        (findFirstMatch sigs (row_candidates header dataRows)).map
          (fun p => p.2)) := by
  refine ⟨?_, ?_, ?_⟩
  · intro sigs headers v h
    obtain ⟨sig, hmem, hreq, hforb, hone, hmax⟩ := score_vendor_match_spec h
    exact ⟨sig, hmem, hreq, hforb, hmax⟩
  · intro sigs pre i r suf v hpre hr
    induction pre with
    | nil => rw [List.nil_append, findFirstMatch, hr]
    | cons q rest ih =>
      obtain ⟨j, q2⟩ := q
      rw [List.cons_append, findFirstMatch,
        hpre (j, q2) (List.mem_cons_self _ _)]
      exact ih (fun q' hq' => hpre q' (List.mem_cons_of_mem _ hq'))
  · intro sigs st header dataRows
    cases hf : findFirstMatch sigs (row_candidates header dataRows) with
    | some p =>
      obtain ⟨i, v⟩ := p
      rw [detect_csv_vendor_of_found sigs st header dataRows i v hf]; rfl
    | none => rw [detect_csv_vendor_of_none sigs st header dataRows hf]; rfl

/-- C5 witness: the short-circuit conjunct applied to a concrete
candidate list where the second row carries the UNFI signature. -/
theorem c5_witness :
    findFirstMatch file_signatures
      ([(0, [some "JUNK".data])] ++
        (1, [some "CUST NBR".data, some "ZONE".data, some "UNIT COST".data]) ::
          [(2, [some "JUNK".data])]) = some (1, "UNFI") :=
  c5_score_and_short_circuit.2.1 file_signatures [(0, [some "JUNK".data])] 1
    [some "CUST NBR".data, some "ZONE".data, some "UNIT COST".data]
    [(2, [some "JUNK".data])] "UNFI" (by decide) (by decide)

/-! ## C10: RAINFOREST is reachable only through the sheet check -/

/-- C10: the generic registry has no RAINFOREST entry, so generic row
scoring and CSV classification only ever return one of the five
registered tags (never RAINFOREST), and an Excel classification that
returns RAINFOREST must come from a successful "Full Price List"
sheet check. -/
theorem c10_rainforest_only_via_sheet_check :
    (∀ st header dataRows v,
      (detect_csv_vendor file_signatures st header dataRows).1 = some v →
      v ∈ ["HANA", "KEHE", "OSA", "UNFI", "ECRS"]) ∧
    (∀ (headers : List Cell) v, score_vendor_match file_signatures headers = some v →
      v ∈ ["HANA", "KEHE", "OSA", "UNFI", "ECRS"]) ∧
    (∀ st sheets, (detect_excel_vendor file_signatures st sheets).1 = some "RAINFOREST" →
      ∃ i, check_rainforest_sheet sheets = some i) ∧
    ("RAINFOREST" : String) ∉ ["HANA", "KEHE", "OSA", "UNFI", "ECRS"] := by
  refine ⟨?_, ?_, ?_, by decide⟩
  · intro st header dataRows v h
    cases hf : findFirstMatch file_signatures (row_candidates header dataRows) with
    | some p =>
      obtain ⟨i, w⟩ := p
      rw [detect_csv_vendor_of_found file_signatures st header dataRows i w hf] at h
      obtain rfl : w = v := by simpa using h
      obtain ⟨r, hr⟩ := findFirstMatch_mem hf
      obtain ⟨sig, hmem, -⟩ := score_vendor_match_spec hr
      exact file_signatures_vendors hmem
    | none =>
      rw [detect_csv_vendor_of_none file_signatures st header dataRows hf] at h
      exact absurd h (by simp)
  · intro headers v h
    obtain ⟨sig, hmem, -⟩ := score_vendor_match_spec h
    exact file_signatures_vendors hmem
  · intro st sheets h
    obtain ⟨i, hc, -⟩ := detect_excel_rainforest st sheets h
    exact ⟨i, hc⟩

/-- C10 witness: the CSV conjunct applied to a concrete UNFI file. -/
theorem c10_witness : ("UNFI" : String) ∈ ["HANA", "KEHE", "OSA", "UNFI", "ECRS"] :=
  c10_rainforest_only_via_sheet_check.1 initVendorState [some "X".data]
    [[some "CUST NBR".data, some "ZONE".data, some "UNIT COST".data]] "UNFI"
    (by decide)

/-! ## C6: header-row write-back -/

/-- C6 (amended): the discovered candidate-row index is written back
for UNFI when classification runs on a delimited text (CSV) file, and
for RAINFOREST via the "Full Price List" sheet check; but when an
Excel file is classified through generic scoring — which is the only
way an Excel file can be classified as UNFI — the vendor state is left
untouched, so the UNFI header row is NOT updated on that file kind. -/
theorem c6_header_row_writeback :
    (∀ sigs st header dataRows,
      (detect_csv_vendor sigs st header dataRows).1 = some "UNFI" →
      ∃ i, findFirstMatch sigs (row_candidates header dataRows) = some (i, "UNFI") ∧
        (detect_csv_vendor sigs st header dataRows).2 =
          { st with unfi_header_row := i }) ∧
    (∀ st sheets,
      (detect_excel_vendor file_signatures st sheets).1 = some "RAINFOREST" →
      ∃ i, check_rainforest_sheet sheets = some i ∧
        (detect_excel_vendor file_signatures st sheets).2 =
          { st with rainforest_header_row := i }) ∧
    (∀ st sheets v, (detect_excel_vendor file_signatures st sheets).1 = some v →
      v ≠ "RAINFOREST" → (detect_excel_vendor file_signatures st sheets).2 = st) := by
  refine ⟨?_, detect_excel_rainforest, detect_excel_state_unchanged⟩
  intro sigs st header dataRows h
  cases hf : findFirstMatch sigs (row_candidates header dataRows) with
  | some p =>
    obtain ⟨i, w⟩ := p
    rw [detect_csv_vendor_of_found sigs st header dataRows i w hf] at h ⊢
    obtain rfl : w = "UNFI" := by simpa using h
    exact ⟨i, rfl, by simp⟩
  | none =>
    rw [detect_csv_vendor_of_none sigs st header dataRows hf] at h
    exact absurd h (by simp)

/-- C6 counterexample: an Excel file whose fourth data row (candidate
index 3) carries the UNFI signature is classified as UNFI, yet the
UNFI `header_row` entry keeps its previous value 2 — the discovered
index is not written back on this file kind. -/
theorem c6_counterexample :
    detect_excel_vendor file_signatures initVendorState
        [⟨"Sheet1", [some "J1".data],
          [[some "J2".data], [some "J3".data], [some "J4".data],
           [some "CUST NBR".data, some "ZONE".data, some "UNIT COST".data]]⟩]
      = (some "UNFI", ⟨2, 2⟩) ∧
    findFirstMatch file_signatures (row_candidates [some "J1".data]
        [[some "J2".data], [some "J3".data], [some "J4".data],
         [some "CUST NBR".data, some "ZONE".data, some "UNIT COST".data]])
      = some (3, "UNFI") ∧
    ¬ ((2 : Nat) = 3) := by decide

/-- C6 witness: the no-write conjunct applied to the same concrete
Excel file. -/
theorem c6_witness :
    (detect_excel_vendor file_signatures ⟨2, 2⟩
        [⟨"Sheet1", [some "J1".data],
          [[some "J2".data], [some "J3".data], [some "J4".data],
           [some "CUST NBR".data, some "ZONE".data, some "UNIT COST".data]]⟩]).2
      = ⟨2, 2⟩ :=
  c6_header_row_writeback.2.2 ⟨2, 2⟩
    [⟨"Sheet1", [some "J1".data],
      [[some "J2".data], [some "J3".data], [some "J4".data],
       [some "CUST NBR".data, some "ZONE".data, some "UNIT COST".data]]⟩]
    "UNFI" (by decide) (by decide)

/-! ## Reconciliation lemmas -/

theorem rowMatches_cons (r : CostRow) (t : List CostRow) (k : List Char) :
    rowMatches (r :: t) k =
      if (r.key == k) = true then r :: rowMatches t k else rowMatches t k := by
  simp only [rowMatches, List.filter_cons]

/-- Each key of a duplicate-free vendor extract matches at most one
row. -/
theorem rowMatches_length_le_one {v : List CostRow} {k : List Char}
    (hnd : (v.map (fun r => r.key)).Nodup) : (rowMatches v k).length ≤ 1 := by
  induction v with
  | nil => simp [rowMatches]
  | cons r t ih =>
    rw [List.map_cons, List.nodup_cons] at hnd
    obtain ⟨hnotin, hnd'⟩ := hnd
    rw [rowMatches_cons]
    by_cases hk : (r.key == k) = true
    · rw [if_pos hk]
      have hkey : r.key = k := by simpa using hk
      have hft : rowMatches t k = [] := by
        rw [List.eq_nil_iff_forall_not_mem]
        intro x hx
        obtain ⟨hxt, hxk⟩ := List.mem_filter.mp hx
        have hxkey : x.key = k := by simpa using hxk
        exact hnotin (List.mem_map.mpr ⟨x, hxt, by rw [hxkey, hkey]⟩)
      rw [hft]
      simp
    · rw [if_neg hk]
      exact ih hnd'

/-- An unmatched key is exactly one outside the vendor's key column. -/
theorem rowMatches_eq_nil_iff {v : List CostRow} {k : List Char} :
    rowMatches v k = [] ↔ k ∉ v.map (fun r => r.key) := by
  rw [rowMatches, List.filter_eq_nil_iff]
  constructor
  · intro h hmem
    obtain ⟨r, hr, hrk⟩ := List.mem_map.mp hmem
    exact h r hr (by simp [hrk])
  · intro h r hr hrk
    exact h (List.mem_map.mpr ⟨r, hr, by simpa using hrk⟩)

/-- Entry `i` of the expanded merged cost column when every base row
strictly before position `i` has at most one match in the vendor
extract: the positional lookup then lands on base row `i`'s own
first-seen match. -/
theorem mergeExpand_getD : ∀ (base : List BaseRow) (v : List CostRow) (i : Nat)
    (b : BaseRow), base[i]? = some b →
    (∀ j b', j < i → base[j]? = some b' → (rowMatches v b'.key).length ≤ 1) →
    (mergeExpand base v).getD i none = firstCostOf v b.key := by
  intro base
  induction base with
  | nil => intro v i b hb _; simp at hb
  | cons b0 rest ih =>
    intro v i b hb hpre
    cases i with
    | zero =>
      obtain rfl : b0 = b := by simpa using hb
      simp only [mergeExpand, List.map_cons, List.flatten_cons]
      cases hms : rowMatches v b0.key with
      | nil =>
        rw [firstCostOf, hms]
        simp [hms]
      | cons r ms =>
        rw [firstCostOf, hms]
        simp [hms]
    | succ n =>
      rw [List.getElem?_cons_succ] at hb
      have h0 : (rowMatches v b0.key).length ≤ 1 :=
        hpre 0 b0 (Nat.succ_pos n) (by simp)
      have hsingle : ∃ c, (if (rowMatches v b0.key).isEmpty then [none]
          else (rowMatches v b0.key).map (fun r => r.cost)) = [c] := by
        cases hms : rowMatches v b0.key with
        | nil => exact ⟨none, by simp⟩
        | cons r ms =>
          cases ms with
          | nil => exact ⟨r.cost, by simp⟩
          | cons x xs => rw [hms] at h0; simp at h0
      obtain ⟨c, hc⟩ := hsingle
      simp only [mergeExpand, List.map_cons, List.flatten_cons]
      rw [hc, List.cons_append, List.getD_cons_succ, List.nil_append]
      exact ih v n b hb (fun j b' hj hget =>
        hpre (j + 1) b' (Nat.succ_lt_succ hj) (by simpa using hget))

/-! ## C3: duplicate keys in a vendor extract -/

/-- C3 (amended): the reconciled result always has exactly one row per
base row and a duplicate key is never fatal; but the per-vendor cost
is assigned back onto the base frame by pandas index alignment against
the row-expanded merge, so a base row receives its own first-seen
matching cost only when every base row before it has at most one match
— base rows positioned after a duplicated key receive shifted costs
instead of being unaffected (see the counterexample). -/
theorem c3_first_seen_prefix :
    (∀ base (vendors : List (List CostRow)),
      (create_matching_test base vendors).length = base.length) ∧
    (∀ (base : List BaseRow) (v : List CostRow) (i : Nat) (b : BaseRow),
      base[i]? = some b → b.label = i →
      (∀ j b', j < i → base[j]? = some b' → (rowMatches v b'.key).length ≤ 1) →
      ∃ row : ReconRow, (create_matching_test base [v])[i]? = some row ∧
        row.costs = [firstCostOf v b.key]) := by
  constructor
  · intro base vendors; simp [create_matching_test]
  · intro base v i b hb hlab hpre
    have hget : (create_matching_test base [v])[i]? =
        some ⟨b.label, b.key, [alignedCost base v b],
          minCost [alignedCost base v b], countCost [alignedCost base v b]⟩ := by
      simp only [create_matching_test, List.getElem?_map, hb]
      rfl
    refine ⟨_, hget, ?_⟩
    show [alignedCost base v b] = [firstCostOf v b.key]
    rw [alignedCost, hlab, mergeExpand_getD base v i b hb hpre]

/-- C3 counterexample: with base keys A, B, C (contiguous labels) and
a vendor extract holding a duplicate key A, the expanded merge shifts
the assignment — the duplicated row A keeps the first-seen cost 10,
but the unmatched row B receives A's duplicate cost 20 and the matched
row C loses its cost 30. -/
theorem c3_counterexample :
    (create_matching_test
        [⟨0, "A".data⟩, ⟨1, "B".data⟩, ⟨2, "C".data⟩]
        [[⟨"A".data, some 10⟩, ⟨"A".data, some 20⟩, ⟨"C".data, some 30⟩]]).map
      (fun r => r.costs) = [[some 10], [some 20], [none]] ∧
    rowMatches [⟨"A".data, some 10⟩, ⟨"A".data, some 20⟩, ⟨"C".data, some 30⟩]
      "B".data = [] ∧
    rowMatches [⟨"A".data, some 10⟩, ⟨"A".data, some 20⟩, ⟨"C".data, some 30⟩]
      "C".data = [⟨"C".data, some 30⟩] := by decide

/-- C3 witness: the amended theorem applied to the first base row of
the counterexample run — it does receive the first-seen cost 10 even
though its key is duplicated. -/
theorem c3_witness :
    ∃ row : ReconRow, (create_matching_test
        [⟨0, "A".data⟩, ⟨1, "B".data⟩, ⟨2, "C".data⟩]
        [[⟨"A".data, some 10⟩, ⟨"A".data, some 20⟩, ⟨"C".data, some 30⟩]])[0]?
      = some row ∧
      row.costs = [firstCostOf
        [⟨"A".data, some 10⟩, ⟨"A".data, some 20⟩, ⟨"C".data, some 30⟩] "A".data] :=
  c3_first_seen_prefix.2
    [⟨0, "A".data⟩, ⟨1, "B".data⟩, ⟨2, "C".data⟩]
    [⟨"A".data, some 10⟩, ⟨"A".data, some 20⟩, ⟨"C".data, some 30⟩] 0
    ⟨0, "A".data⟩ (by decide) (by decide)
    (fun j b' hj _ => absurd hj (Nat.not_lt_zero j))

/-! ## C7: min_cost and cost_sources -/

/-- C7 (amended): `min_cost` and `cost_sources` are always the minimum
and the count of the non-null per-vendor cost-column values, and rows
with `cost_sources = 0` are retained; and PROVIDED the base frame's
index labels are the contiguous positions 0..N-1 (no base row was
dropped during extraction) and the cost set's keys are distinct with
non-null costs, `min_cost` is non-null for exactly the matched rows
(each with `cost_sources ≥ 1`) and null for the unmatched ones.  With
a gappy base index the index-aligned assignment breaks this
correspondence (see the counterexample). -/
theorem c7_reconciliation_min_cost (base : List BaseRow) (v : List CostRow)
    (hlab : ∀ i : Fin base.length, (base.get i).label = i.val)
    (hnd : (v.map (fun r => r.key)).Nodup)
    (hc : ∀ r ∈ v, r.cost.isSome = true) :
    (create_matching_test base [v]).length = base.length ∧
    (∀ row ∈ create_matching_test base [v],
      row.min_cost = minCost row.costs ∧ row.cost_sources = countCost row.costs) ∧
    (∀ (i : Nat) (b : BaseRow), base[i]? = some b →
      ∃ row : ReconRow, (create_matching_test base [v])[i]? = some row ∧ row.key = b.key ∧
        (row.min_cost.isSome = true ↔ b.key ∈ v.map (fun r => r.key)) ∧
        (b.key ∈ v.map (fun r => r.key) → 1 ≤ row.cost_sources) ∧
        (b.key ∉ v.map (fun r => r.key) →
          row.min_cost = none ∧ row.cost_sources = 0)) := by
  refine ⟨by simp [create_matching_test], ?_, ?_⟩
  · intro row hrow
    obtain ⟨b, -, rfl⟩ := List.mem_map.mp hrow
    exact ⟨rfl, rfl⟩
  · intro i b hb
    have hlt : i < base.length := by
      obtain ⟨h, -⟩ := List.getElem?_eq_some.mp hb
      exact h
    have hbl : b.label = i := by
      obtain ⟨h, heq⟩ := List.getElem?_eq_some.mp hb
      have := hlab ⟨i, h⟩
      rw [List.get_eq_getElem] at this
      rw [← heq]
      exact this
    have haligned : alignedCost base v b = firstCostOf v b.key := by
      rw [alignedCost, hbl]
      exact mergeExpand_getD base v i b hb
        (fun j b' _ _ => rowMatches_length_le_one hnd)
    have hget : (create_matching_test base [v])[i]? =
        some ⟨b.label, b.key, [alignedCost base v b],
          minCost [alignedCost base v b], countCost [alignedCost base v b]⟩ := by
      simp only [create_matching_test, List.getElem?_map, hb]
      rfl
    refine ⟨_, hget, rfl, ?_, ?_, ?_⟩
    · -- min_cost non-null iff matched
      show (minCost [alignedCost base v b]).isSome = true ↔
        b.key ∈ v.map (fun r => r.key)
      rw [haligned]
      constructor
      · intro hsome
        by_contra hnot
        rw [firstCostOf, rowMatches_eq_nil_iff.mpr hnot] at hsome
        simp [minCost] at hsome
      · intro hmem
        cases hms : rowMatches v b.key with
        | nil => exact absurd hmem (by rwa [← rowMatches_eq_nil_iff])
        | cons r ms =>
          have hr : r ∈ v := (List.mem_filter.mp
            (hms ▸ List.mem_cons_self r ms : r ∈ rowMatches v b.key)).1
          obtain ⟨c, hcc⟩ := Option.isSome_iff_exists.mp (hc r hr)
          rw [firstCostOf, hms]
          simp [minCost, hcc]
    · -- matched rows have at least one cost source
      intro hmem
      show 1 ≤ countCost [alignedCost base v b]
      rw [haligned]
      cases hms : rowMatches v b.key with
      | nil => exact absurd hmem (by rwa [← rowMatches_eq_nil_iff])
      | cons r ms =>
        have hr : r ∈ v := (List.mem_filter.mp
          (hms ▸ List.mem_cons_self r ms : r ∈ rowMatches v b.key)).1
        obtain ⟨c, hcc⟩ := Option.isSome_iff_exists.mp (hc r hr)
        rw [firstCostOf, hms]
        simp [countCost, hcc]
    · -- unmatched rows keep a null minimum and zero sources
      intro hnot
      constructor
      · show minCost [alignedCost base v b] = none
        rw [haligned, firstCostOf, rowMatches_eq_nil_iff.mpr hnot]
        simp [minCost]
      · show countCost [alignedCost base v b] = 0
        rw [haligned, firstCostOf, rowMatches_eq_nil_iff.mpr hnot]
        simp [countCost]

/-- C7 counterexample: a base frame whose index labels are 0 and 2
(row 1 was dropped during extraction, the normal effect of the
null-key drop) and a single-key cost set that matches base key B: the
matched row B still ends with a null `min_cost` and `cost_sources`
= 0 because the assignment aligns label 2 past the end of the merged
column — so `min_cost` is not non-null for exactly the matched rows. -/
theorem c7_counterexample :
    (create_matching_test [⟨0, "A".data⟩, ⟨2, "B".data⟩]
        [[⟨"B".data, some 5⟩]]).map
      (fun r => (r.key, r.min_cost, r.cost_sources))
      = [("A".data, none, 0), ("B".data, none, 0)] ∧
    rowMatches [⟨"B".data, some 5⟩] "B".data = [⟨"B".data, some 5⟩] := by decide

/-- C7 witness: the amended theorem applied to a contiguous two-row
base with one matching and one non-matching key. -/
theorem c7_witness :
    (create_matching_test [⟨0, "A".data⟩, ⟨1, "B".data⟩]
      [[⟨"A".data, some 10⟩]]).length = 2 := by
  have h := (c7_reconciliation_min_cost [⟨0, "A".data⟩, ⟨1, "B".data⟩]
    [⟨"A".data, some 10⟩] (by decide) (by decide) (by decide)).1
  simpa using h

/-! ## C4: the extractor error boundary -/

/-- C4 (amended): the extractor never propagates an exception — it
returns `None` exactly when its body fails internally (a diagnostic is
printed), which is a null result rather than an empty record set; and
the batch loop of `process_vendor_cycle` skips a `None` result and
keeps processing the remaining vendor files, so a failure never aborts
the batch. -/
theorem c4_error_boundary :
    (∀ f v, extract_vendor_data f v = none ↔ ∃ e, extractCore f v = Except.error e) ∧
    (∀ pre v f post, extract_vendor_data f v = none →
      collect_vendor_data (pre ++ (v, f) :: post) =
        collect_vendor_data pre ++ collect_vendor_data post) := by
  constructor
  · intro f v
    constructor
    · intro h
      cases hec : extractCore f v with
      | ok recs =>
        rw [extract_vendor_data, hec] at h
        exact absurd h (by simp)
      | error e => exact ⟨e, rfl⟩
    · rintro ⟨e, hec⟩
      rw [extract_vendor_data, hec]
  · intro pre v f post h
    simp only [collect_vendor_data, List.filterMap_append, List.filterMap_cons, h,
      Option.map_none']

/-- C4 counterexample: on a total file parse failure the extractor
returns `None` (the null result), not the empty record set the claim
requires. -/
theorem c4_counterexample : extract_vendor_data none "UNFI" = none := by decide

/-- C4 witness: the batch-continuation conjunct applied to a concrete
batch where the UNFI file fails to parse between two HANA frames. -/
theorem c4_witness :
    collect_vendor_data
        ([("HANA", some ⟨7, [[none, none, none, some "123456".data, none, none,
            some "5".data]]⟩)] ++ ("UNFI", (none : Option Df)) ::
          [("HANA", some ⟨7, []⟩)]) =
      collect_vendor_data [("HANA", some ⟨7, [[none, none, none,
          some "123456".data, none, none, some "5".data]]⟩)] ++
        collect_vendor_data [("HANA", some ⟨7, []⟩)] :=
  c4_error_boundary.2
    [("HANA", some ⟨7, [[none, none, none, some "123456".data, none, none,
      some "5".data]]⟩)] "UNFI" none [("HANA", some ⟨7, []⟩)] (by decide)

end SmPricing
